import Mathlib

/-!
# Verification of the adaptive wake-detection core of whoop-cli

Shallow embedding of `src/utils/wake.ts`: the history store
(`loadHistory` / `saveHistory` / `addToHistory`), the rolling statistics
engine (`calculateRollingStats`), the record parser (`parseSleepRecord`)
and the scoring algorithm (`checkWake`).

Modelling conventions:
* JavaScript numbers are embedded as `ℚ`; `Math.round` is `jsRound`
  (round half towards positive infinity, as in JS), and
  `Math.round(x * 10) / 10` is `round1`.
* The history file on disk is a `FileState`: absent, unreadable/corrupt
  (`JSON.parse` throws), or a stored list of records.  File effects are
  explicit state passing of a `FileState`.
* `Date.prototype.getUTCHours` applied to the `end` timestamp is an
  explicit function parameter `getUTCHours : String → ℚ` (it belongs to
  the platform, not to this repository); `start.split('T')[0]` is
  embedded concretely with `String.splitOn`.
* A candidate session (TypeScript `any`) is a record of `Option` fields;
  JavaScript falsiness of the `end` string is `jsTruthyStr`, and an
  unguarded property access on a missing object is the `tErr` outcome
  (a thrown `TypeError`), distinct from the deliberate
  `throw new Error('Invalid sleep data')` (`invalidInput`).
* `Array.prototype.sort` with the `localeCompare` comparator on
  ISO-date strings is embedded as a stable insertion sort by the
  lexicographic order on `String`.
-/

deriving instance DecidableEq for Except

namespace Whoop

/-- Lexicographic less-or-equal on lists of characters, by structural
recursion (kernel-reducible, unlike `String.ltb`).  This is the order
in which `localeCompare` compares plain ASCII `YYYY-MM-DD` strings. -/
def strLeb : List Char → List Char → Bool
  | [], _ => true
  | _ :: _, [] => false
  | c :: cs, d :: ds => if c = d then strLeb cs ds else decide (c < d)

/-- Lexicographic order on strings, via `strLeb` on their characters. -/
def strLe (s t : String) : Prop := strLeb s.data t.data = true

instance : DecidableRel strLe := fun s t =>
  inferInstanceAs (Decidable (strLeb s.data t.data = true))

/-- Strict lexicographic order on strings. -/
def strLt (s t : String) : Prop := strLe s t ∧ s ≠ t

instance : DecidableRel strLt := fun s t =>
  inferInstanceAs (Decidable (strLe s t ∧ s ≠ t))

theorem strLeb_refl : ∀ l : List Char, strLeb l l = true
  | [] => rfl
  | _ :: cs => by simp [strLeb, strLeb_refl cs]

theorem strLeb_total : ∀ a b : List Char, strLeb a b = true ∨ strLeb b a = true
  | [], _ => Or.inl rfl
  | _ :: _, [] => Or.inr rfl
  | c :: cs, d :: ds => by
    by_cases hcd : c = d
    · subst hcd
      simpa [strLeb] using strLeb_total cs ds
    · rcases lt_trichotomy c d with h | h | h
      · exact Or.inl (by simp [strLeb, hcd, h])
      · exact absurd h hcd
      · exact Or.inr (by simp [strLeb, Ne.symm hcd, h])

theorem strLeb_antisymm :
    ∀ a b : List Char, strLeb a b = true → strLeb b a = true → a = b
  | [], [], _, _ => rfl
  | [], _ :: _, _, h => by simp [strLeb] at h
  | _ :: _, [], h, _ => by simp [strLeb] at h
  | c :: cs, d :: ds, h, h' => by
    by_cases hcd : c = d
    · subst hcd
      simp only [strLeb, if_pos rfl] at h h'
      exact congrArg (c :: ·) (strLeb_antisymm cs ds h h')
    · simp only [strLeb, if_neg hcd, if_neg (Ne.symm hcd), decide_eq_true_eq]
        at h h'
      exact absurd h' (not_lt_of_lt h)

theorem strLeb_trans :
    ∀ a b c : List Char, strLeb a b = true → strLeb b c = true →
      strLeb a c = true
  | [], _, _, _, _ => rfl
  | _ :: _, [], _, h, _ => by simp [strLeb] at h
  | _ :: _, _ :: _, [], _, h' => by simp [strLeb] at h'
  | a :: as, b :: bs, c :: cs, h, h' => by
    by_cases hab : a = b
    · subst hab
      by_cases hac : a = c
      · subst hac
        simp only [strLeb, if_pos rfl] at h h' ⊢
        exact strLeb_trans as bs cs h h'
      · simpa [strLeb, hac] using (by simpa [strLeb, hac] using h' :
          decide (a < c) = true)
    · simp only [strLeb, if_neg hab, decide_eq_true_eq] at h
      by_cases hbc : b = c
      · subst hbc
        simp [strLeb, hab, h]
      · simp only [strLeb, if_neg hbc, decide_eq_true_eq] at h'
        have hac : a < c := lt_trans h h'
        simp [strLeb, ne_of_lt hac, hac]

theorem strLe_refl (s : String) : strLe s s := strLeb_refl s.data

theorem strLe_total (s t : String) : strLe s t ∨ strLe t s :=
  strLeb_total s.data t.data

theorem strLe_antisymm {s t : String} (h : strLe s t) (h' : strLe t s) :
    s = t := by
  cases s with
  | mk a => cases t with
    | mk b => exact congrArg String.mk (strLeb_antisymm a b h h')

theorem strLe_trans {s t u : String} (h : strLe s t) (h' : strLe t u) :
    strLe s u := strLeb_trans s.data t.data u.data h h'

theorem strLt_iff {s t : String} : strLt s t ↔ strLe s t ∧ s ≠ t := Iff.rfl

theorem strLt_of_strLe_of_ne {s t : String} (h : strLe s t) (h' : s ≠ t) :
    strLt s t := ⟨h, h'⟩

theorem strLt_trans {s t u : String} (h : strLt s t) (h' : strLt t u) :
    strLt s u := by
  refine ⟨strLe_trans h.1 h'.1, fun he => h.2 ?_⟩
  subst he
  exact strLe_antisymm h.1 h'.1

theorem strLt_asymm {s t : String} (h : strLt s t) : ¬ strLt t s :=
  fun h' => h.2 (strLe_antisymm h.1 h'.1)

theorem strLe_of_strLt {s t : String} (h : strLt s t) : strLe s t := h.1

theorem strLt_of_strLe_not_strLe {s t : String} (h : strLe s t)
    (h' : ¬ strLe t s) : strLt s t :=
  ⟨h, fun he => h' (he ▸ strLe_refl s)⟩

/-!
JavaScript numeric operations on the embedded numbers (`ℚ`).  The
Batteries field operations on `Rat` are `@[irreducible]`, which blocks
evaluation of the embedded program on concrete inputs; so the embedding
uses the following kernel-computable formulations via `Rat.divInt`,
each proved equal to the corresponding field operation on `ℚ`.
-/

/-- Addition on the embedded JavaScript numbers (equals `a + b`). -/
def qadd (a b : ℚ) : ℚ :=
  Rat.divInt (a.num * b.den + b.num * a.den) ((a.den : ℤ) * b.den)

/-- Multiplication on the embedded JavaScript numbers (equals `a * b`). -/
def qmul (a b : ℚ) : ℚ :=
  Rat.divInt (a.num * b.num) ((a.den : ℤ) * b.den)

/-- Division on the embedded JavaScript numbers (equals `a / b`). -/
def qdiv (a b : ℚ) : ℚ :=
  Rat.divInt (a.num * b.den) ((a.den : ℤ) * b.num)

/-- Subtraction on the embedded JavaScript numbers (equals `a - b`). -/
def qsub (a b : ℚ) : ℚ :=
  Rat.divInt (a.num * b.den - b.num * a.den) ((a.den : ℤ) * b.den)

theorem qadd_eq (a b : ℚ) : qadd a b = a + b := by
  rw [qadd, Rat.add_num_den]
  congr 1
  ring

theorem qmul_eq (a b : ℚ) : qmul a b = a * b := by
  rw [qmul, Rat.mul_eq_mkRat, Rat.mkRat_eq_divInt]
  push_cast
  ring_nf

theorem qdiv_eq (a b : ℚ) : qdiv a b = a / b := by
  rw [qdiv, Rat.div_def']

theorem qsub_eq (a b : ℚ) : qsub a b = a - b := by
  have h : a - b = a + (-b) := sub_eq_add_neg a b
  rw [h, ← qadd_eq, qadd, Rat.neg_num, Rat.neg_den, qsub]
  congr 1
  ring

/-- `interface SleepRecord` of wake.ts. -/
structure SleepRecord where
  date : String
  endUtcHour : ℚ
  durationHours : ℚ
  cycles : ℚ
  performance : ℚ
  efficiency : ℚ
deriving Repr, DecidableEq, Inhabited

/-- `interface RollingStats` of wake.ts (`sampleSize` is a list length). -/
structure RollingStats where
  avgEndHour : ℚ
  minEndHour : ℚ
  avgDuration : ℚ
  minDuration : ℚ
  avgCycles : ℚ
  minCycles : ℚ
  avgPerformance : ℚ
  minPerformance : ℚ
  sampleSize : ℕ
deriving Repr, DecidableEq, Inhabited

/-- The `thresholds` object built inside `checkWake`. -/
structure Thresholds where
  endHourMin : ℚ
  durationMin : ℚ
  cyclesMin : ℚ
  performanceMin : ℚ
deriving Repr, DecidableEq, Inhabited

/-- One entry of the `checks` array of a `WakeCheckResult`. -/
structure WakeCheck where
  name : String
  passed : Bool
  points : ℚ
  detail : String
deriving Repr, DecidableEq, Inhabited

/-- The `confidence` field: `'high' | 'medium' | 'low'`. -/
inductive Confidence where
  | high
  | medium
  | low
deriving Repr, DecidableEq, Inhabited

/-- The `sleep` sub-object of a `WakeCheckResult`. -/
structure SleepSnapshot where
  endTime : String
  endHourUtc : ℚ
  durationHours : ℚ
  cycles : ℚ
  performance : ℚ
deriving Repr, DecidableEq, Inhabited

/-- `interface WakeCheckResult` of wake.ts. -/
structure WakeCheckResult where
  isAwake : Bool
  score : ℚ
  maxScore : ℚ
  confidence : Confidence
  sleep : SleepSnapshot
  thresholds : Thresholds
  checks : List WakeCheck
  stats : RollingStats
deriving Repr, DecidableEq, Inhabited

/-- `const HISTORY_DAYS = 14` — keep 2 weeks of history. -/
def HISTORY_DAYS : ℕ := 14

/-- `const ROLLING_WINDOW = 7` — use 7 days for rolling stats. -/
def ROLLING_WINDOW : ℕ := 7

/-- State of the history file on disk: missing, unreadable or
syntactically corrupt (reading or `JSON.parse` throws), or storing a
list of records. -/
inductive FileState where
  | absent
  | corrupt
  | stored (records : List SleepRecord)
deriving Repr, DecidableEq, Inhabited

/-- `loadHistory`: `[]` when the file does not exist, `[]` when reading
or parsing throws (the `try ... catch` returns `[]`), otherwise the
parsed contents. -/
def loadHistory : FileState → List SleepRecord
  | .absent => []
  | .corrupt => []
  | .stored records => records

/-- `saveHistory`: writes `history.slice(-HISTORY_DAYS)`, i.e. the last
14 elements, to the file. -/
def saveHistory (history : List SleepRecord) : FileState :=
  .stored (history.drop (history.length - HISTORY_DAYS))

/-- `Array.prototype.findIndex`, with `-1` embedded as `none`. -/
def findIndex (p : α → Bool) : List α → Option ℕ
  | [] => none
  | a :: l => if p a then some 0 else (findIndex p l).map (· + 1)

/-- The replace-or-append step of `addToHistory`: replace the first
record with a matching date, else push the new record at the end. -/
def upsertList (record : SleepRecord) (history : List SleepRecord) :
    List SleepRecord :=
  match findIndex (fun h => decide (h.date = record.date)) history with
  | some i => history.set i record
  | none => history ++ [record]

/-- The comparator of `addToHistory`,
`(a, b) => a.date.localeCompare(b.date)`, as an order on records
(lexicographic order on the date strings). -/
def dateLe (a b : SleepRecord) : Prop := strLe a.date b.date

instance : DecidableRel dateLe := fun a b =>
  inferInstanceAs (Decidable (strLe a.date b.date))

instance : IsTotal SleepRecord dateLe := ⟨fun a b => strLe_total a.date b.date⟩

instance : IsTrans SleepRecord dateLe := ⟨fun _ _ _ h h2 => strLe_trans h h2⟩

/-- `history.sort((a, b) => a.date.localeCompare(b.date))`: a stable
sort by date (JavaScript `Array.prototype.sort` is stable). -/
def sortByDate (l : List SleepRecord) : List SleepRecord :=
  List.insertionSort dateLe l

/-- `addToHistory`: load, replace-or-append by date, sort by date,
save (which applies the 14-entry cap). -/
def addToHistory (record : SleepRecord) (fs : FileState) : FileState :=
  saveHistory (sortByDate (upsertList record (loadHistory fs)))

/-- `arr.reduce((a, b) => a + b, 0)`. -/
def listSum (l : List ℚ) : ℚ := l.foldl qadd 0

/-- The `avg` helper of `calculateRollingStats`: `sum(arr) / arr.length`. -/
def listAvg (l : List ℚ) : ℚ := qdiv (listSum l) (l.length : ℚ)

/-- `Math.min(...arr)`; only applied to non-empty arrays in the source
(the empty case, `Infinity` in JS, is unreachable there). -/
def jsMin : List ℚ → ℚ
  | [] => 0
  | x :: xs => xs.foldl min x

/-- JavaScript `Math.round`: round half towards positive infinity,
`⌊q + 1/2⌋`. -/
def jsRound (q : ℚ) : ℤ := (qadd q (qdiv 1 2)).floor

theorem jsRound_eq (q : ℚ) : jsRound q = ⌊q + 1 / 2⌋ := by
  rw [jsRound, qadd_eq, qdiv_eq, Rat.floor_def', Rat.floor_def]

/-- `Math.round(q * 10) / 10`: round to one decimal digit. -/
def round1 (q : ℚ) : ℚ := qdiv ((jsRound (qmul q 10) : ℤ) : ℚ) 10

theorem round1_eq (q : ℚ) : round1 q = ((⌊q * 10 + 1 / 2⌋ : ℤ) : ℚ) / 10 := by
  rw [round1, qdiv_eq, jsRound_eq, qmul_eq]

theorem listSum_eq (l : List ℚ) : listSum l = l.sum := by
  have h : ∀ (l : List ℚ) (acc : ℚ), l.foldl qadd acc = acc + l.sum := by
    intro l
    induction l with
    | nil => intro acc; simp [List.foldl]
    | cons x xs ih =>
      intro acc
      rw [List.foldl, qadd_eq, ih, List.sum_cons]
      ring
  rw [listSum, h, zero_add]

theorem listAvg_eq (l : List ℚ) : listAvg l = l.sum / (l.length : ℚ) := by
  rw [listAvg, qdiv_eq, listSum_eq]

/-- The fixed default statistics returned for an empty window
("Default stats for new users"). -/
def defaultStats : RollingStats where
  avgEndHour := 14
  minEndHour := 13
  avgDuration := 7
  minDuration := 5
  avgCycles := 4
  minCycles := 3
  avgPerformance := 80
  minPerformance := 70
  sampleSize := 0

/-- `history.slice(-ROLLING_WINDOW)`: the positionally last (at most)
7 entries of the history. -/
def rollingWindow (history : List SleepRecord) : List SleepRecord :=
  history.drop (history.length - ROLLING_WINDOW)

/-- `calculateRollingStats`: statistics over `history.slice(-ROLLING_WINDOW)`
(the positionally last 7 entries). -/
def calculateRollingStats (history : List SleepRecord) : RollingStats :=
  let recent := rollingWindow history
  if recent.isEmpty then defaultStats
  else
    { avgEndHour := round1 (listAvg (recent.map (·.endUtcHour)))
      minEndHour := jsMin (recent.map (·.endUtcHour))
      avgDuration := round1 (listAvg (recent.map (·.durationHours)))
      minDuration := round1 (jsMin (recent.map (·.durationHours)))
      avgCycles := round1 (listAvg (recent.map (·.cycles)))
      minCycles := jsMin (recent.map (·.cycles))
      avgPerformance := ((jsRound (listAvg (recent.map (·.performance))) : ℤ) : ℚ)
      minPerformance := jsMin (recent.map (·.performance))
      sampleSize := recent.length }

/-- The `score.stage_summary` block of a WHOOP sleep session, with
optional fields (the input is TypeScript `any`). -/
structure StageSummary where
  total_in_bed_time_milli : Option ℚ
  sleep_cycle_count : Option ℚ
deriving Repr, DecidableEq, Inhabited

/-- The `score` block of a WHOOP sleep session. -/
structure SleepScore where
  stage_summary : Option StageSummary
  sleep_performance_percentage : Option ℚ
  sleep_efficiency_percentage : Option ℚ
deriving Repr, DecidableEq, Inhabited

/-- A candidate WHOOP sleep session (`sleep : any`); the `end` field is
spelled `end_` because `end` is a Lean keyword. -/
structure CandidateSleep where
  start : Option String
  end_ : Option String
  score : Option SleepScore
deriving Repr, DecidableEq, Inhabited

/-- `st.split('T')[0]`: the prefix of `st` before its first `'T'`
(the whole string when `'T'` does not occur), embedded structurally. -/
def splitHeadT (st : String) : String :=
  String.mk (st.data.takeWhile (fun c => decide (c ≠ 'T')))

/-- JavaScript truthiness of an optional string field: `undefined` and
the empty string are falsy. -/
def jsTruthyStr : Option String → Bool
  | none => false
  | some s => s ≠ ""

/-- Outcome of `parseSleepRecord`: the explicit `null` for a failed
guard, a thrown `TypeError` from an unguarded access on a missing
`start` or `stage_summary`, or a parsed record. -/
inductive ParseResult where
  | nullRec
  | tErr
  | ok (record : SleepRecord)
deriving Repr, DecidableEq, Inhabited

/-- `parseSleepRecord`.  The guard is
`if (!sleep || !sleep.end || !sleep.score) return null`.  After the
guard, `sleep.start.split('T')[0]` and
`sleep.score.stage_summary.total_in_bed_time_milli` are unguarded
accesses; with `start` or `stage_summary` missing they throw
(`tErr`).  The four numeric leaves are read with `|| 0` defaults. -/
def parseSleepRecord (getUTCHours : String → ℚ)
    (sleep : Option CandidateSleep) : ParseResult :=
  match sleep with
  | none => .nullRec
  | some s =>
    if jsTruthyStr s.end_ = false then .nullRec
    else
      match s.score with
      | none => .nullRec
      | some sc =>
        match s.start with
        | none => .tErr
        | some st =>
          match sc.stage_summary with
          | none => .tErr
          | some stages =>
            .ok
              { date := splitHeadT st
                endUtcHour := getUTCHours (s.end_.getD "")
                durationHours := qdiv (stages.total_in_bed_time_milli.getD 0) 3600000
                cycles := stages.sleep_cycle_count.getD 0
                performance := sc.sleep_performance_percentage.getD 0
                efficiency := sc.sleep_efficiency_percentage.getD 0 }

/-- `sleepHistory.filter(h => h.date !== sleepRecord.date)`: the
history with the entry for the evaluated date excluded. -/
def excludeDate (d : String) (history : List SleepRecord) :
    List SleepRecord :=
  history.filter (fun h => decide (h.date ≠ d))

/-- The two abnormal exits of `checkWake`: the deliberate
`throw new Error('Invalid sleep data')`, and a propagated `TypeError`
from `parseSleepRecord`. -/
inductive WakeError where
  | invalidInput
  | tErr
deriving Repr, DecidableEq, Inhabited

/-- Rendering of an embedded JavaScript number inside the
human-readable `detail` strings (an abstraction of JS number
formatting; no claim inspects these strings). -/
def ratStr (q : ℚ) : String :=
  if q.den = 1 then toString q.num
  else toString q.num ++ "/" ++ toString q.den

/-- The `currentSleep.end` string read back into the result's
`sleep.endTime` field (defined whenever the guard passed). -/
def jsEndOf : Option CandidateSleep → String
  | none => ""
  | some s => s.end_.getD ""

/-- The adaptive thresholds computed by `checkWake` from the rolling
statistics. -/
def wakeThresholds (stats : RollingStats) : Thresholds where
  endHourMin := qsub stats.minEndHour 2
  durationMin := round1 (qmul stats.avgDuration (qdiv 7 10))
  cyclesMin := max (qsub stats.minCycles 1) 2
  performanceMin := ((jsRound (qmul stats.avgPerformance (qdiv 3 4)) : ℤ) : ℚ)

/-- Check 1 of `checkWake`: `end_hour_minimum`, 3 points,
`endUtcHour >= thresholds.endHourMin`. -/
def wakeCheck1 (rec : SleepRecord) (thr : Thresholds) : WakeCheck :=
  if thr.endHourMin ≤ rec.endUtcHour then
    ⟨"end_hour_minimum", true, 3,
      ratStr rec.endUtcHour ++ " UTC >= " ++
        ratStr thr.endHourMin ++ " UTC (min - 2h)"⟩
  else
    ⟨"end_hour_minimum", false, 0,
      ratStr rec.endUtcHour ++ " UTC < " ++
        ratStr thr.endHourMin ++ " UTC (too early)"⟩

/-- Check 2 of `checkWake`: `end_hour_typical`, 2 points,
`endUtcHour >= stats.minEndHour`. -/
def wakeCheck2 (rec : SleepRecord) (stats : RollingStats) : WakeCheck :=
  if stats.minEndHour ≤ rec.endUtcHour then
    ⟨"end_hour_typical", true, 2,
      ratStr rec.endUtcHour ++ " UTC >= " ++
        ratStr stats.minEndHour ++ " UTC (typical min)"⟩
  else
    ⟨"end_hour_typical", false, 0,
      ratStr rec.endUtcHour ++ " UTC < " ++
        ratStr stats.minEndHour ++ " UTC (earlier than typical)"⟩

/-- Check 3 of `checkWake`: `duration`, 2 points,
`durationHours >= thresholds.durationMin`. -/
def wakeCheck3 (rec : SleepRecord) (thr : Thresholds) : WakeCheck :=
  if thr.durationMin ≤ rec.durationHours then
    ⟨"duration", true, 2,
      ratStr rec.durationHours ++ "h >= " ++
        ratStr thr.durationMin ++ "h (70% of avg)"⟩
  else
    ⟨"duration", false, 0,
      ratStr rec.durationHours ++ "h < " ++
        ratStr thr.durationMin ++ "h (too short)"⟩

/-- Check 4 of `checkWake`: `cycles`, 2 points,
`cycles >= thresholds.cyclesMin`. -/
def wakeCheck4 (rec : SleepRecord) (thr : Thresholds) : WakeCheck :=
  if thr.cyclesMin ≤ rec.cycles then
    ⟨"cycles", true, 2,
      ratStr rec.cycles ++ " cycles >= " ++
        ratStr thr.cyclesMin ++ " (min - 1)"⟩
  else
    ⟨"cycles", false, 0,
      ratStr rec.cycles ++ " cycles < " ++
        ratStr thr.cyclesMin ++ " (incomplete sleep)"⟩

/-- Check 5 of `checkWake`: `performance`, 1 point,
`performance >= thresholds.performanceMin`. -/
def wakeCheck5 (rec : SleepRecord) (thr : Thresholds) : WakeCheck :=
  if thr.performanceMin ≤ rec.performance then
    ⟨"performance", true, 1,
      ratStr rec.performance ++ "% >= " ++
        ratStr thr.performanceMin ++ "% (75% of avg)"⟩
  else
    ⟨"performance", false, 0,
      ratStr rec.performance ++ "% < " ++
        ratStr thr.performanceMin ++ "% (below typical)"⟩

/-- The `checks` array pushed by `checkWake`, in source order. -/
def wakeChecksList (rec : SleepRecord) (stats : RollingStats)
    (thr : Thresholds) : List WakeCheck :=
  [wakeCheck1 rec thr, wakeCheck2 rec stats, wakeCheck3 rec thr,
    wakeCheck4 rec thr, wakeCheck5 rec thr]

/-- The accumulated `score` of `checkWake` (`score += ...` inside each
passed check, in source order, starting from 0). -/
def wakeScore (rec : SleepRecord) (stats : RollingStats)
    (thr : Thresholds) : ℚ :=
  qadd
    (qadd
      (qadd
        (qadd (qadd 0 (if thr.endHourMin ≤ rec.endUtcHour then 3 else 0))
          (if stats.minEndHour ≤ rec.endUtcHour then 2 else 0))
        (if thr.durationMin ≤ rec.durationHours then 2 else 0))
      (if thr.cyclesMin ≤ rec.cycles then 2 else 0))
    (if thr.performanceMin ≤ rec.performance then 1 else 0)

/-- The `confidence` assignment of `checkWake`: start at `low`,
upgrade on sample size. -/
def wakeConfidence (sampleSize : ℕ) : Confidence :=
  if 7 ≤ sampleSize then .high
  else if 3 ≤ sampleSize then .medium
  else .low

/-- `checkWake(currentSleep, history?)`.  The optional `history`
parameter is `Option (List SleepRecord)`; the history file is the
explicit `fs : FileState`, returned (possibly updated by the
`addToHistory` side effect) together with the result. -/
def checkWake (getUTCHours : String → ℚ) (currentSleep : Option CandidateSleep)
    (history : Option (List SleepRecord)) (fs : FileState) :
    Except WakeError (WakeCheckResult × FileState) :=
  match parseSleepRecord getUTCHours currentSleep with
  | .tErr => .error .tErr
  | .nullRec => .error .invalidInput
  | .ok sleepRecord =>
    let sleepHistory := history.getD (loadHistory fs)
    let historyWithoutToday := excludeDate sleepRecord.date sleepHistory
    let stats := calculateRollingStats historyWithoutToday
    let thresholds := wakeThresholds stats
    let score := wakeScore sleepRecord stats thresholds
    let isAwake : Bool := decide ((6 : ℚ) ≤ score)
    let fs2 := if isAwake then addToHistory sleepRecord fs else fs
    .ok
      ({ isAwake := isAwake
         score := score
         maxScore := 10
         confidence := wakeConfidence stats.sampleSize
         sleep :=
           { endTime := jsEndOf currentSleep
             endHourUtc := sleepRecord.endUtcHour
             durationHours := round1 sleepRecord.durationHours
             cycles := sleepRecord.cycles
             performance := sleepRecord.performance }
         thresholds := thresholds
         checks := wakeChecksList sleepRecord stats thresholds
         stats := stats }, fs2)

/-! ### Inversion of a successful `checkWake` run -/

/-- A successful `checkWake` run returns the structure assembled from
the parsed record, the rolling statistics over the history with the
candidate's date filtered out, the adaptive thresholds, the five
checks and the accumulated score; the file state is updated by
`addToHistory` exactly when `isAwake`. -/
theorem checkWake_ok_elim {g : String → ℚ} {c : Option CandidateSleep}
    {h : Option (List SleepRecord)} {fs : FileState} {r : WakeCheckResult}
    {fs2 : FileState}
    (hk : checkWake g c h fs = .ok (r, fs2)) :
    ∃ rec, parseSleepRecord g c = .ok rec ∧
      r.stats = calculateRollingStats
        (excludeDate rec.date (h.getD (loadHistory fs))) ∧
      r.thresholds = wakeThresholds r.stats ∧
      r.score = wakeScore rec r.stats r.thresholds ∧
      r.isAwake = decide ((6 : ℚ) ≤ r.score) ∧
      r.maxScore = 10 ∧
      r.confidence = wakeConfidence r.stats.sampleSize ∧
      r.sleep = ⟨jsEndOf c, rec.endUtcHour, round1 rec.durationHours,
        rec.cycles, rec.performance⟩ ∧
      r.checks = wakeChecksList rec r.stats r.thresholds ∧
      fs2 = (if r.isAwake then addToHistory rec fs else fs) := by
  simp only [checkWake] at hk
  cases hp : parseSleepRecord g c with
  | tErr => rw [hp] at hk; exact absurd hk (by simp)
  | nullRec => rw [hp] at hk; exact absurd hk (by simp)
  | ok rec =>
    rw [hp] at hk
    simp only [Except.ok.injEq, Prod.mk.injEq] at hk
    obtain ⟨hr, hf⟩ := hk
    subst hr
    subst hf
    exact ⟨rec, rfl, rfl, rfl, rfl, rfl, rfl, rfl, rfl, rfl, rfl⟩

theorem wakeConfidence_high (n : ℕ) : wakeConfidence n = .high ↔ 7 ≤ n := by
  rw [wakeConfidence]
  split_ifs with h1 h2 <;> simp_all

theorem wakeConfidence_medium (n : ℕ) :
    wakeConfidence n = .medium ↔ 3 ≤ n ∧ n < 7 := by
  rw [wakeConfidence]
  split_ifs with h1 h2 <;> simp_all

theorem wakeConfidence_low (n : ℕ) : wakeConfidence n = .low ↔ n < 3 := by
  rw [wakeConfidence]
  split_ifs with h1 h2 <;> simp_all
  omega

/-! ### Concrete inputs used by the witnesses -/

/-- A fixed stand-in for `Date.prototype.getUTCHours` on the `end`
timestamp, used by the witnesses. -/
def wG : String → ℚ := fun _ => 6

/-- A fully-populated candidate session used by the witnesses. -/
def wCand : CandidateSleep where
  start := some "2025-02-03T22:00:00Z"
  end_ := some "2025-02-04T06:12:00Z"
  score := some
    { stage_summary := some ⟨some 27000000, some 4⟩
      sleep_performance_percentage := some 82
      sleep_efficiency_percentage := some 91 }

/-- The result of running `checkWake` on `wCand` with an empty history
override and no history file. -/
def wOut : WakeCheckResult × FileState :=
  match checkWake wG (some wCand) (some []) FileState.absent with
  | .ok p => p
  | .error _ => default

/-- The parsed record of `wCand`. -/
def wRec : SleepRecord :=
  match parseSleepRecord wG (some wCand) with
  | .ok rec => rec
  | _ => default

/-! ### C1 -/

/-- C1: for every accepted candidate and history, `isAwake` holds iff
the total score is at least the fixed threshold 6; `maxScore` is
always 10; the confidence label is `high` iff `sampleSize ≥ 7`,
`medium` iff `3 ≤ sampleSize < 7`, `low` iff `sampleSize < 3`; and
any two successful runs with equal scores agree on `isAwake` (so the
confidence inputs never change the decision). -/
theorem wake_C1 (g : String → ℚ) (c : Option CandidateSleep)
    (h : Option (List SleepRecord)) (fs : FileState) (r : WakeCheckResult)
    (fs2 : FileState) (hk : checkWake g c h fs = .ok (r, fs2)) :
    (r.isAwake = true ↔ (6 : ℚ) ≤ r.score) ∧
    r.maxScore = 10 ∧
    (r.confidence = .high ↔ 7 ≤ r.stats.sampleSize) ∧
    (r.confidence = .medium ↔ 3 ≤ r.stats.sampleSize ∧ r.stats.sampleSize < 7) ∧
    (r.confidence = .low ↔ r.stats.sampleSize < 3) ∧
    (∀ g2 c2 h2 fs3 r2 fs4, checkWake g2 c2 h2 fs3 = .ok (r2, fs4) →
      r2.score = r.score → r2.isAwake = r.isAwake) := by
  obtain ⟨rec, _, _, _, _, hA, hM, hC, _, _, _⟩ := checkWake_ok_elim hk
  refine ⟨?_, hM, ?_, ?_, ?_, ?_⟩
  · rw [hA]
    exact decide_eq_true_iff
  · rw [hC]
    exact wakeConfidence_high _
  · rw [hC]
    exact wakeConfidence_medium _
  · rw [hC]
    exact wakeConfidence_low _
  · intro g2 c2 h2 fs3 r2 fs4 hk2 hsc
    obtain ⟨rec2, _, _, _, _, hA2, _⟩ := checkWake_ok_elim hk2
    rw [hA, hA2, hsc]

/-- Witness for C1 at the concrete run `wOut`. -/
theorem wake_C1_witness : wOut.1.isAwake = true ↔ (6 : ℚ) ≤ wOut.1.score :=
  (wake_C1 wG (some wCand) (some []) FileState.absent wOut.1 wOut.2
    (by decide)).1

/-! ### C2 -/

/-- C2: for every `RollingStats`, the adaptive thresholds are
`endHourMin = minEndHour - 2`,
`durationMin = avgDuration * 0.7` rounded to 1 decimal,
`cyclesMin = max (minCycles - 1) 2` (hence always at least 2), and
`performanceMin = avgPerformance * 0.75` rounded to the nearest
integer; and every successful `checkWake` run reports exactly these
thresholds for its reported stats. -/
theorem wake_C2 :
    (∀ stats : RollingStats,
      (wakeThresholds stats).endHourMin = stats.minEndHour - 2 ∧
      (wakeThresholds stats).durationMin =
        ((⌊stats.avgDuration * (7 / 10) * 10 + 1 / 2⌋ : ℤ) : ℚ) / 10 ∧
      (wakeThresholds stats).cyclesMin = max (stats.minCycles - 1) 2 ∧
      (2 : ℚ) ≤ (wakeThresholds stats).cyclesMin ∧
      (wakeThresholds stats).performanceMin =
        ((⌊stats.avgPerformance * (3 / 4) + 1 / 2⌋ : ℤ) : ℚ)) ∧
    (∀ g c h fs r fs2, checkWake g c h fs = .ok (r, fs2) →
      r.thresholds = wakeThresholds r.stats) := by
  constructor
  · intro stats
    refine ⟨qsub_eq _ _, ?_, ?_, ?_, ?_⟩
    · show round1 (qmul stats.avgDuration (qdiv 7 10)) = _
      rw [round1_eq, qmul_eq, qdiv_eq]
    · show max (qsub stats.minCycles 1) 2 = _
      rw [qsub_eq]
    · show (2 : ℚ) ≤ max (qsub stats.minCycles 1) 2
      exact le_max_right _ _
    · show ((jsRound (qmul stats.avgPerformance (qdiv 3 4)) : ℤ) : ℚ) = _
      rw [jsRound_eq, qmul_eq, qdiv_eq]
  · intro g c h fs r fs2 hk
    obtain ⟨rec, _, _, hthr, _⟩ := checkWake_ok_elim hk
    exact hthr

/-- Witness for C2: the thresholds of the concrete run `wOut` are the
thresholds of its stats, and its `cyclesMin` is at least 2. -/
theorem wake_C2_witness : wOut.1.thresholds = wakeThresholds wOut.1.stats :=
  wake_C2.2 wG (some wCand) (some []) FileState.absent wOut.1 wOut.2
    (by decide)

/-! ### C3 -/

/-- C3: the checks list of a successful run consists of exactly these
five entries, in this fixed order — `end_hour_minimum` (weight 3,
passes iff `endUtcHour ≥ endHourMin`), `end_hour_typical` (weight 2,
passes iff `endUtcHour ≥ stats.minEndHour`), `duration` (weight 2),
`cycles` (weight 2), `performance` (weight 1) — each awarding its full
weight when passed and 0 when failed (never any other value), and the
total score is the sum of the awarded points. -/
theorem wake_C3 (g : String → ℚ) (c : Option CandidateSleep)
    (h : Option (List SleepRecord)) (fs : FileState) (r : WakeCheckResult)
    (fs2 : FileState) (rec : SleepRecord)
    (hp : parseSleepRecord g c = .ok rec)
    (hk : checkWake g c h fs = .ok (r, fs2)) :
    r.checks.map (fun ck => (ck.name, ck.passed, ck.points)) =
      [("end_hour_minimum", decide (r.thresholds.endHourMin ≤ rec.endUtcHour),
          if r.thresholds.endHourMin ≤ rec.endUtcHour then (3 : ℚ) else 0),
       ("end_hour_typical", decide (r.stats.minEndHour ≤ rec.endUtcHour),
          if r.stats.minEndHour ≤ rec.endUtcHour then (2 : ℚ) else 0),
       ("duration", decide (r.thresholds.durationMin ≤ rec.durationHours),
          if r.thresholds.durationMin ≤ rec.durationHours then (2 : ℚ) else 0),
       ("cycles", decide (r.thresholds.cyclesMin ≤ rec.cycles),
          if r.thresholds.cyclesMin ≤ rec.cycles then (2 : ℚ) else 0),
       ("performance", decide (r.thresholds.performanceMin ≤ rec.performance),
          if r.thresholds.performanceMin ≤ rec.performance then (1 : ℚ) else 0)] ∧
    r.score = (r.checks.map (fun ck => ck.points)).sum := by
  obtain ⟨rec2, hp2, _, _, hsc, _, _, _, _, hch, _⟩ := checkWake_ok_elim hk
  rw [hp] at hp2
  injection hp2 with he
  cases he
  rw [hch, hsc]
  by_cases h1 : r.thresholds.endHourMin ≤ rec.endUtcHour <;>
    by_cases h2 : r.stats.minEndHour ≤ rec.endUtcHour <;>
    by_cases h3 : r.thresholds.durationMin ≤ rec.durationHours <;>
    by_cases h4 : r.thresholds.cyclesMin ≤ rec.cycles <;>
    by_cases h5 : r.thresholds.performanceMin ≤ rec.performance <;>
    simp [wakeChecksList, wakeCheck1, wakeCheck2, wakeCheck3, wakeCheck4,
      wakeCheck5, wakeScore, qadd_eq, h1, h2, h3, h4, h5] <;>
    norm_num

/-- Witness for C3 at the concrete run `wOut`. -/
theorem wake_C3_witness :
    wOut.1.score = (wOut.1.checks.map (fun ck => ck.points)).sum :=
  (wake_C3 wG (some wCand) (some []) FileState.absent wOut.1 wOut.2 wRec
    (by decide) (by decide)).2

/-! ### C6 -/

/-- C6: every successful evaluation upserts the parsed record into the
history file exactly when `isAwake` is true and leaves the file
untouched when it is false, and the returned result always carries the
full structure (candidate snapshot, thresholds of the reported stats,
all five checks, max score 10, confidence of the reported sample
size), regardless of the decision. -/
theorem wake_C6 (g : String → ℚ) (c : Option CandidateSleep)
    (h : Option (List SleepRecord)) (fs : FileState) (r : WakeCheckResult)
    (fs2 : FileState) (hk : checkWake g c h fs = .ok (r, fs2)) :
    ∃ rec, parseSleepRecord g c = .ok rec ∧
      (r.isAwake = true → fs2 = addToHistory rec fs) ∧
      (r.isAwake = false → fs2 = fs) ∧
      r.sleep = ⟨jsEndOf c, rec.endUtcHour, round1 rec.durationHours,
        rec.cycles, rec.performance⟩ ∧
      r.thresholds = wakeThresholds r.stats ∧
      r.stats = calculateRollingStats
        (excludeDate rec.date (h.getD (loadHistory fs))) ∧
      r.checks.length = 5 ∧
      r.maxScore = 10 ∧
      r.confidence = wakeConfidence r.stats.sampleSize := by
  obtain ⟨rec, hp, hst, hthr, _, _, hM, hC, hsl, hch, hfs⟩ :=
    checkWake_ok_elim hk
  refine ⟨rec, hp, ?_, ?_, hsl, hthr, hst, ?_, hM, hC⟩
  · intro hA
    rw [hfs, hA]
    simp
  · intro hA
    rw [hfs, hA]
    simp
  · rw [hch]
    rfl

/-- Witness for C6 at the concrete run `wOut` (whose `isAwake` is
false, so the file stays `absent`). -/
theorem wake_C6_witness : wOut.2 = FileState.absent := by
  obtain ⟨rec, _, _, hkeep, _⟩ :=
    wake_C6 wG (some wCand) (some []) FileState.absent wOut.1 wOut.2
      (by decide)
  exact hkeep (by decide)

/-! ### Parse-guard helper lemmas -/

theorem parseSleepRecord_none (g : String → ℚ) :
    parseSleepRecord g none = .nullRec := rfl

/-- The guard of `parseSleepRecord` returns `null` exactly when the
`end` field is falsy or the `score` field is missing; no other field
is consulted by the guard. -/
theorem parseSleepRecord_nullRec_iff (g : String → ℚ) (c : CandidateSleep) :
    parseSleepRecord g (some c) = .nullRec ↔
      (jsTruthyStr c.end_ = false ∨ c.score = none) := by
  rcases c with ⟨st, e, sc⟩
  simp only [parseSleepRecord]
  cases he : jsTruthyStr e
  · simp
  · rcases sc with _ | sc
    · simp
    · rcases st with _ | st
      · simp
      · rcases sc with ⟨ss, p, q⟩
        rcases ss with _ | ss <;> simp

/-- `parseSleepRecord` throws a `TypeError` exactly when the guard
passes but `start` or `stage_summary` is missing. -/
theorem parseSleepRecord_tErr_iff (g : String → ℚ) (c : CandidateSleep) :
    parseSleepRecord g (some c) = .tErr ↔
      (jsTruthyStr c.end_ = true ∧ ∃ sc, c.score = some sc ∧
        (c.start = none ∨ sc.stage_summary = none)) := by
  rcases c with ⟨st, e, sc⟩
  simp only [parseSleepRecord]
  cases he : jsTruthyStr e
  · simp
  · rcases sc with _ | sc
    · simp
    · rcases st with _ | st
      · simp
      · rcases sc with ⟨ss, p, q⟩
        rcases ss with _ | ss <;> simp

theorem checkWake_invalidInput_iff (g : String → ℚ)
    (c : Option CandidateSleep) (h : Option (List SleepRecord))
    (fs : FileState) :
    checkWake g c h fs = .error .invalidInput ↔
      parseSleepRecord g c = .nullRec := by
  simp only [checkWake]
  cases hp : parseSleepRecord g c <;> simp

theorem checkWake_tErr_iff (g : String → ℚ)
    (c : Option CandidateSleep) (h : Option (List SleepRecord))
    (fs : FileState) :
    checkWake g c h fs = .error .tErr ↔
      parseSleepRecord g c = .tErr := by
  simp only [checkWake]
  cases hp : parseSleepRecord g c <;> simp

/-! ### C9 -/

/-- C9: loading an absent, unreadable or corrupt history file yields
the empty history (and `loadHistory` is a total function, so it never
throws), while loading a validly stored history returns exactly the
stored records. -/
theorem wake_C9 :
    loadHistory .absent = [] ∧ loadHistory .corrupt = [] ∧
    ∀ records : List SleepRecord, loadHistory (.stored records) = records :=
  ⟨rfl, rfl, fun _ => rfl⟩

/-! ### C10 -/

/-- A candidate with `end` and `score` present but `start` missing. -/
def cNoStart : CandidateSleep where
  start := none
  end_ := some "2025-02-04T06:12:00Z"
  score := some
    { stage_summary := some ⟨some 27000000, some 4⟩
      sleep_performance_percentage := some 82
      sleep_efficiency_percentage := some 91 }

/-- A candidate with `end` and `score` present but `score.stage_summary`
missing. -/
def cNoStages : CandidateSleep where
  start := some "2025-02-03T22:00:00Z"
  end_ := some "2025-02-04T06:12:00Z"
  score := some
    { stage_summary := none
      sleep_performance_percentage := some 82
      sleep_efficiency_percentage := some 91 }

/-- A guard-passing candidate missing only
`sleep_performance_percentage`. -/
def cNoPerf : CandidateSleep where
  start := some "2025-02-03T22:00:00Z"
  end_ := some "2025-02-04T06:12:00Z"
  score := some
    { stage_summary := some ⟨some 27000000, some 4⟩
      sleep_performance_percentage := none
      sleep_efficiency_percentage := some 90 }

/-- The record parsed from `cNoPerf`. -/
def cNoPerfRec : SleepRecord :=
  match parseSleepRecord wG (some cNoPerf) with
  | .ok rec => rec
  | _ => default

/-- C10: the input guard tests only the presence of `end` and `score`;
with both present but `start` absent, or `stage_summary` absent,
parsing throws a `TypeError` (neither a result nor the invalid-input
error); and for guard-passing candidates every absent numeric leaf is
silently scored as 0 instead of being rejected. -/
theorem wake_C10 :
    (∀ g (c : CandidateSleep), parseSleepRecord g (some c) = .nullRec ↔
      (jsTruthyStr c.end_ = false ∨ c.score = none)) ∧
    (parseSleepRecord wG (some cNoStart) = .tErr ∧
      checkWake wG (some cNoStart) none FileState.absent = .error .tErr) ∧
    (parseSleepRecord wG (some cNoStages) = .tErr ∧
      checkWake wG (some cNoStages) none FileState.absent = .error .tErr) ∧
    (∀ g (c : CandidateSleep) s0 sc ss rec, c.start = some s0 →
      c.score = some sc → sc.stage_summary = some ss →
      parseSleepRecord g (some c) = .ok rec →
      ((ss.total_in_bed_time_milli = none → rec.durationHours = 0) ∧
       (ss.sleep_cycle_count = none → rec.cycles = 0) ∧
       (sc.sleep_performance_percentage = none → rec.performance = 0) ∧
       (sc.sleep_efficiency_percentage = none → rec.efficiency = 0))) := by
  refine ⟨parseSleepRecord_nullRec_iff, ⟨by decide, by decide⟩,
    ⟨by decide, by decide⟩, ?_⟩
  intro g c s0 sc ss rec hst hsc hss hok
  rcases c with ⟨st, e, sc'⟩
  cases hst
  cases hsc
  cases he : jsTruthyStr e
  · rw [parseSleepRecord, if_pos (by rw [he])] at hok
    cases hok
  · simp [parseSleepRecord, he, hss] at hok
    subst hok
    refine ⟨?_, ?_, ?_, ?_⟩ <;> intro hnone <;> simp [hnone, qdiv_eq]

/-- Witness for C10: the concrete guard-passing candidate `cNoPerf`
is parsed with `performance` silently defaulted to 0. -/
theorem wake_C10_witness : cNoPerfRec.performance = 0 :=
  ((wake_C10.2.2.2 wG cNoPerf "2025-02-03T22:00:00Z"
      { stage_summary := some ⟨some 27000000, some 4⟩
        sleep_performance_percentage := none
        sleep_efficiency_percentage := some 90 }
      ⟨some 27000000, some 4⟩ cNoPerfRec rfl rfl rfl (by decide)).2.2.1) rfl

/-! ### C5 (corrected) -/

/-- C5 counterexample: `cNoPerf` lacks the required
`sleep_performance_percentage` field, so the claim demands the
invalid-input failure; the code instead accepts it and silently
defaults the missing field to 0 before scoring. -/
theorem wake_C5_counterexample :
    checkWake wG (some cNoPerf) (some []) FileState.absent ≠
      .error .invalidInput ∧
    parseSleepRecord wG (some cNoPerf) =
      .ok ⟨"2025-02-03", 6, Rat.divInt 15 2, 4, 0, 90⟩ := by
  constructor <;> decide

/-- C5 amended: `checkWake` fails with the invalid-input error iff the
candidate is null, its `end` field is falsy, or its `score` block is
missing; a candidate passing that guard but lacking `start` or
`stage_summary` fails with a `TypeError` instead; and missing numeric
leaf fields are silently defaulted (see C10), never reported. -/
theorem wake_C5_amended :
    (∀ g h fs, checkWake g none h fs = .error .invalidInput) ∧
    (∀ g (c : CandidateSleep) h fs,
      checkWake g (some c) h fs = .error .invalidInput ↔
        (jsTruthyStr c.end_ = false ∨ c.score = none)) ∧
    (∀ g (c : CandidateSleep) h fs sc,
      jsTruthyStr c.end_ = true → c.score = some sc →
      (c.start = none ∨ sc.stage_summary = none) →
      checkWake g (some c) h fs = .error .tErr) := by
  refine ⟨?_, ?_, ?_⟩
  · intro g h fs
    rw [checkWake_invalidInput_iff]
    exact parseSleepRecord_none g
  · intro g c h fs
    rw [checkWake_invalidInput_iff]
    exact parseSleepRecord_nullRec_iff g c
  · intro g c h fs sc he hsc hmiss
    rw [checkWake_tErr_iff, parseSleepRecord_tErr_iff]
    exact ⟨he, sc, hsc, hmiss⟩

/-- Witness for C5 at the concrete candidate `cNoStart`. -/
theorem wake_C5_witness :
    checkWake wG (some cNoStart) none FileState.absent = .error .tErr :=
  wake_C5_amended.2.2 wG cNoStart none FileState.absent
    { stage_summary := some ⟨some 27000000, some 4⟩
      sleep_performance_percentage := some 82
      sleep_efficiency_percentage := some 91 }
    (by decide) rfl (Or.inl rfl)

/-! ### Upsert helper lemmas -/

theorem upsertList_nil (r : SleepRecord) : upsertList r [] = [r] := rfl

/-- Unfolding of the replace-or-append step. -/
theorem upsertList_cons (r a : SleepRecord) (t : List SleepRecord) :
    upsertList r (a :: t) =
      if a.date = r.date then r :: t else a :: upsertList r t := by
  by_cases ha : a.date = r.date
  · simp [upsertList, findIndex, ha]
  · have hd : (decide (a.date = r.date)) = false := by simp [ha]
    cases hft : findIndex (fun x => decide (x.date = r.date)) t
    · simp [upsertList, findIndex, hd, hft, ha]
    · simp [upsertList, findIndex, hd, hft, ha]

theorem countP_upsertList (r : SleepRecord) (h : List SleepRecord)
    (hnd : (h.map (·.date)).Nodup) :
    (upsertList r h).countP (fun x => decide (x.date = r.date)) = 1 := by
  induction h with
  | nil => simp [upsertList_nil, List.countP_cons]
  | cons a t ih =>
    simp only [List.map_cons, List.nodup_cons] at hnd
    obtain ⟨hna, hnt⟩ := hnd
    rw [upsertList_cons]
    by_cases had : a.date = r.date
    · rw [if_pos had]
      have ht0 : t.countP (fun x => decide (x.date = r.date)) = 0 := by
        rw [List.countP_eq_zero]
        intro x hx
        simp only [decide_eq_true_eq]
        intro hxr
        exact hna (List.mem_map.mpr ⟨x, hx, hxr.trans had.symm⟩)
      simp [List.countP_cons, ht0]
    · rw [if_neg had]
      simp [List.countP_cons, had, ih hnt]

theorem mem_upsertList (r : SleepRecord) (h : List SleepRecord)
    (hnd : (h.map (·.date)).Nodup) :
    ∀ x ∈ upsertList r h, x = r ∨ (x ∈ h ∧ x.date ≠ r.date) := by
  induction h with
  | nil =>
    intro x hx
    rw [upsertList_nil, List.mem_singleton] at hx
    exact Or.inl hx
  | cons a t ih =>
    simp only [List.map_cons, List.nodup_cons] at hnd
    obtain ⟨hna, hnt⟩ := hnd
    intro x hx
    rw [upsertList_cons] at hx
    by_cases had : a.date = r.date
    · rw [if_pos had] at hx
      rcases List.mem_cons.mp hx with hxr | hxt
      · exact Or.inl hxr
      · refine Or.inr ⟨List.mem_cons_of_mem _ hxt, fun hdx => ?_⟩
        exact hna (List.mem_map.mpr ⟨x, hxt, hdx.trans had.symm⟩)
    · rw [if_neg had] at hx
      rcases List.mem_cons.mp hx with hxa | hxt
      · exact Or.inr ⟨by rw [hxa]; exact List.mem_cons_self a t, by rw [hxa]; exact had⟩
      · rcases ih hnt x hxt with h1 | ⟨h2, h3⟩
        · exact Or.inl h1
        · exact Or.inr ⟨List.mem_cons_of_mem _ h2, h3⟩

theorem upsertList_of_fresh {r : SleepRecord} {h : List SleepRecord}
    (hf : ∀ x ∈ h, x.date ≠ r.date) : upsertList r h = h ++ [r] := by
  induction h with
  | nil => rfl
  | cons a t ih =>
    rw [upsertList_cons,
      if_neg (hf a (List.mem_cons_self a t)),
      ih (fun x hx => hf x (List.mem_cons_of_mem _ hx))]
    rfl

/-! ### C7 (corrected) -/

/-- A store holding 14 records whose dates are all larger than
`"2025-01-01"`. -/
def c7store : FileState :=
  .stored ((["2025-01-02", "2025-01-03", "2025-01-04", "2025-01-05",
    "2025-01-06", "2025-01-07", "2025-01-08", "2025-01-09", "2025-01-10",
    "2025-01-11", "2025-01-12", "2025-01-13", "2025-01-14",
    "2025-01-15"]).map (fun d => ⟨d, 13, 7, 4, 80, 90⟩))

/-- The record upserted in the C7 counterexample. -/
def c7rec : SleepRecord := ⟨"2025-01-01", 13, 7, 4, 80, 90⟩

/-- A one-record store used by the C7 witness. -/
def c7wstore : FileState := .stored [⟨"2025-01-02", 13, 7, 4, 80, 90⟩]

/-- C7 counterexample: upserting a record whose date is older than 14
already-stored records makes the save-time cap drop the new record
itself, so the following `load` contains no record with its date at
all — not exactly once, as the claim states for every store and
record. -/
theorem wake_C7_counterexample :
    (loadHistory (addToHistory c7rec c7store)).countP
      (fun x => decide (x.date = c7rec.date)) = 0 ∧
    (loadHistory (addToHistory c7rec c7store)).length = 14 := by
  constructor <;> decide

/-- C7 amended: when the loaded store has pairwise-distinct dates and
the replace-or-append result stays within the 14-record cap, an
`upsert` followed by `load` yields a history containing a record with
the upserted date exactly once, and that record is the upserted one,
fields unchanged. -/
theorem wake_C7_amended (r : SleepRecord) (fs : FileState)
    (hnd : ((loadHistory fs).map (fun x => x.date)).Nodup)
    (hlen : (upsertList r (loadHistory fs)).length ≤ HISTORY_DAYS) :
    (loadHistory (addToHistory r fs)).countP
        (fun x => decide (x.date = r.date)) = 1 ∧
    ∀ x ∈ loadHistory (addToHistory r fs), x.date = r.date → x = r := by
  have hsl : (sortByDate (upsertList r (loadHistory fs))).length =
      (upsertList r (loadHistory fs)).length :=
    List.length_insertionSort _ _
  have hload : loadHistory (addToHistory r fs) =
      sortByDate (upsertList r (loadHistory fs)) := by
    have h0 : loadHistory (addToHistory r fs) =
        (sortByDate (upsertList r (loadHistory fs))).drop
          ((sortByDate (upsertList r (loadHistory fs))).length -
            HISTORY_DAYS) := rfl
    rw [h0, hsl, Nat.sub_eq_zero_of_le hlen, List.drop_zero]
  have hperm : List.Perm (sortByDate (upsertList r (loadHistory fs)))
      (upsertList r (loadHistory fs)) := List.perm_insertionSort _ _
  rw [hload]
  refine ⟨?_, ?_⟩
  · rw [hperm.countP_eq]
    exact countP_upsertList r _ hnd
  · intro x hx hdx
    rcases mem_upsertList r _ hnd x (hperm.mem_iff.mp hx) with h1 | ⟨_, h2⟩
    · exact h1
    · exact absurd hdx h2

/-- Witness for C7 on a small store within the cap. -/
theorem wake_C7_witness :
    (loadHistory (addToHistory c7rec c7wstore)).countP
      (fun x => decide (x.date = c7rec.date)) = 1 :=
  (wake_C7_amended c7rec c7wstore (by decide) (by decide)).1

/-! ### C8 -/

/-- Repeated `upsert` calls, in order of the given list. -/
def histFold (rs : List SleepRecord) (fs : FileState) : FileState :=
  rs.foldl (fun s r => addToHistory r s) fs

/-- Invariant tying the store contents `h` to the list `S` of records
upserted so far (all with pairwise-distinct dates): the store is
strictly date-ascending, contains only upserted records, holds
`min |S| 14` of them, and every upserted record whose date is missing
from it lies date-strictly below every stored record. -/
abbrev HistInv (S h : List SleepRecord) : Prop :=
  (h.map (fun x => x.date)).Pairwise strLt ∧
  (∀ x ∈ h, x ∈ S) ∧
  h.length = min S.length HISTORY_DAYS ∧
  (∀ y ∈ S, y.date ∉ h.map (fun x => x.date) → ∀ x ∈ h, strLt y.date x.date)

theorem pairwise_strLt_of_sorted_nodup {l : List SleepRecord}
    (hs : List.Pairwise dateLe l)
    (hnd : (l.map (fun x => x.date)).Nodup) :
    (l.map (fun x => x.date)).Pairwise strLt := by
  have h1 : (l.map (fun x => x.date)).Pairwise strLe :=
    (List.pairwise_map).mpr hs
  exact (h1.and hnd).imp (fun hab => ⟨hab.1, hab.2⟩)

theorem histInv_step {S h : List SleepRecord} {r : SleepRecord}
    (inv : HistInv S h) (hndS : (S.map (fun x => x.date)).Nodup)
    (hfresh : ∀ y ∈ S, y.date ≠ r.date) :
    HistInv (S ++ [r])
      ((sortByDate (upsertList r h)).drop
        ((sortByDate (upsertList r h)).length - HISTORY_DAYS)) := by
  obtain ⟨hstrict, hsub, hlen, hexcl⟩ := inv
  have hsubdate : ∀ x ∈ h, x.date ≠ r.date := fun x hx => hfresh x (hsub x hx)
  have hup : upsertList r h = h ++ [r] := upsertList_of_fresh hsubdate
  rw [hup]
  have hpermL : List.Perm (sortByDate (h ++ [r])) (h ++ [r]) :=
    List.perm_insertionSort _ _
  have hsorted : (sortByDate (h ++ [r])).Pairwise dateLe :=
    List.sorted_insertionSort _ _
  have hndh : (h.map (fun x => x.date)).Nodup := hstrict.imp (fun hab => hab.2)
  have hnd2 : ((h ++ [r]).map (fun x => x.date)).Nodup := by
    rw [List.map_append]
    refine List.Nodup.append hndh (List.nodup_singleton _) ?_
    intro a ha hb
    rw [List.map_singleton, List.mem_singleton] at hb
    obtain ⟨x, hx, hxa⟩ := List.mem_map.mp ha
    exact hsubdate x hx (by rw [hxa, hb])
  have hndL : ((sortByDate (h ++ [r])).map (fun x => x.date)).Nodup :=
    ((hpermL.map (fun x => x.date)).nodup_iff).mpr hnd2
  have hstrictL : ((sortByDate (h ++ [r])).map (fun x => x.date)).Pairwise strLt :=
    pairwise_strLt_of_sorted_nodup hsorted hndL
  have hlenL : (sortByDate (h ++ [r])).length = h.length + 1 := by
    rw [hpermL.length_eq, List.length_append, List.length_singleton]
  set L := sortByDate (h ++ [r]) with hLdef
  set k := L.length - HISTORY_DAYS with hk
  have hLsplit : L.take k ++ L.drop k = L := List.take_append_drop k L
  have hmapsplit : L.map (fun x => x.date) =
      (L.take k).map (fun x => x.date) ++ (L.drop k).map (fun x => x.date) := by
    rw [← List.map_append, hLsplit]
  have hcross : ∀ u ∈ L.take k, ∀ v ∈ L.drop k, strLt u.date v.date := by
    intro u hu v hv
    have hpw := hmapsplit ▸ hstrictL
    exact (List.pairwise_append.mp hpw).2.2 _ (List.mem_map_of_mem _ hu) _
      (List.mem_map_of_mem _ hv)
  have hdisj : ∀ a ∈ (L.take k).map (fun x => x.date),
      a ∉ (L.drop k).map (fun x => x.date) := by
    have hpw := hmapsplit ▸ hndL
    exact (List.nodup_append.mp hpw).2.2
  have hmemh2 : ∀ x ∈ L.drop k, x ∈ h ++ [r] := fun x hx =>
    hpermL.mem_iff.mp (List.mem_of_mem_drop hx)
  have h14 : HISTORY_DAYS = 14 := rfl
  refine ⟨?_, ?_, ?_, ?_⟩
  · exact List.Pairwise.sublist ((List.drop_sublist k L).map _) hstrictL
  · intro x hx
    rcases List.mem_append.mp (hmemh2 x hx) with hxh | hxr
    · exact List.mem_append_left _ (hsub x hxh)
    · exact List.mem_append_right _ hxr
  · have hdl : (L.drop k).length = L.length - k := List.length_drop _ _
    rw [hdl, List.length_append, List.length_singleton]
    omega
  · intro y hy hynot x hx
    rcases List.mem_append.mp hy with hyS | hyr
    · by_cases hyh : y.date ∈ h.map (fun x => x.date)
      · obtain ⟨x0, hx0, hx0d⟩ := List.mem_map.mp hyh
        have hx0y : x0 = y :=
          List.inj_on_of_nodup_map hndS (hsub x0 hx0) hyS hx0d
        have hyL : y ∈ L :=
          hpermL.mem_iff.mpr (List.mem_append_left _ (hx0y ▸ hx0))
        rcases List.mem_append.mp (hLsplit ▸ hyL) with hyt | hyd
        · exact hcross y hyt x hx
        · exact absurd (List.mem_map_of_mem _ hyd) hynot
      · have hyold : ∀ x' ∈ h, strLt y.date x'.date := hexcl y hyS hyh
        rcases List.mem_append.mp (hmemh2 x hx) with hxh | hxr
        · exact hyold x hxh
        · have hxr' : x = r := List.mem_singleton.mp hxr
          have hy_not_h : y ∉ h := fun hy' =>
            hyh (List.mem_map_of_mem _ hy')
          have hhnodup : h.Nodup := hndh.of_map
          have hlen14 : h.length = HISTORY_DAYS := by
            rcases Nat.le_total S.length HISTORY_DAYS with hc | hc
            · exfalso
              have hlh : h.length = S.length := by omega
              have hsp : h.Subperm S := hhnodup.subperm hsub
              have hps : List.Perm h S :=
                hsp.perm_of_length_le (by omega)
              exact hy_not_h (hps.mem_iff.mpr hyS)
            · omega
          have hk1 : k = 1 := by omega
          have htlen : (L.take k).length = 1 := by
            rw [List.length_take]
            omega
          obtain ⟨d0, hd0⟩ : ∃ d0, d0 ∈ L.take k := by
            cases htk : L.take k with
            | nil => rw [htk] at htlen; cases htlen
            | cons a t => exact ⟨a, List.mem_cons_self a t⟩
          have hd0h : d0 ∈ h := by
            rcases List.mem_append.mp
                (hpermL.mem_iff.mp (List.mem_of_mem_take hd0)) with hh | hh
            · exact hh
            · exfalso
              have hrt : r.date ∈ (L.take k).map (fun x => x.date) :=
                List.mem_map_of_mem _ ((List.mem_singleton.mp hh) ▸ hd0)
              have hrd : r.date ∈ (L.drop k).map (fun x => x.date) :=
                List.mem_map_of_mem _ (hxr' ▸ hx)
              exact hdisj _ hrt hrd
          exact strLt_trans (hyold d0 hd0h) (hcross d0 hd0 x hx)
    · have hyr' : y = r := List.mem_singleton.mp hyr
      have hrL : r ∈ L :=
        hpermL.mem_iff.mpr (List.mem_append_right _ (List.mem_singleton_self r))
      rcases List.mem_append.mp (hLsplit ▸ hrL) with hrt | hrd
      · exact hyr' ▸ hcross r hrt x hx
      · exact absurd (List.mem_map_of_mem _ (hyr' ▸ hrd : y ∈ L.drop k)) hynot

theorem histFold_inv :
    ∀ (rs S : List SleepRecord) (fs : FileState),
      HistInv S (loadHistory fs) →
      ((S ++ rs).map (fun x => x.date)).Nodup →
      HistInv (S ++ rs) (loadHistory (histFold rs fs)) := by
  intro rs
  induction rs with
  | nil =>
    intro S fs hinv hnd
    simpa using hinv
  | cons r rs' ih =>
    intro S fs hinv hnd
    have hsub1 : (S ++ [r]).Sublist (S ++ r :: rs') :=
      List.Sublist.append_left
        ((List.singleton_sublist.mpr (List.mem_cons_self r rs'))) S
    have hndSr : ((S ++ [r]).map (fun x => x.date)).Nodup :=
      ((hsub1.map _).nodup hnd)
    have hndS : (S.map (fun x => x.date)).Nodup :=
      (((List.sublist_append_left S (r :: rs')).map _).nodup hnd)
    have hfresh : ∀ y ∈ S, y.date ≠ r.date := by
      intro y hy hyr
      rw [List.map_append] at hndSr
      exact (List.nodup_append.mp hndSr).2.2
        (List.mem_map.mpr ⟨y, hy, rfl⟩) (by simp [hyr])
    have hstep : HistInv (S ++ [r]) (loadHistory (addToHistory r fs)) :=
      histInv_step hinv hndS hfresh
    have hres := ih (S ++ [r]) (addToHistory r fs) hstep
      (by rw [List.append_assoc, List.singleton_append]; exact hnd)
    rw [List.append_assoc, List.singleton_append] at hres
    exact hres

/-- C8: `saveHistory` truncates to the last 14 elements of its
(date-sorted) input; and after more than 14 upserts with pairwise
distinct dates starting from an empty store, `load` returns exactly 14
records, in strictly ascending date order, all taken unchanged from
the upserted records, and every upserted record left out lies
date-strictly below every kept record (the kept 14 are the
most-recent dates). -/
theorem wake_C8 (records : List SleepRecord)
    (hnd : (records.map (fun x => x.date)).Nodup)
    (hlen : HISTORY_DAYS < records.length) :
    (∀ hist : List SleepRecord,
      saveHistory hist = .stored (hist.drop (hist.length - HISTORY_DAYS))) ∧
    (loadHistory (histFold records .absent)).length = 14 ∧
    ((loadHistory (histFold records .absent)).map
      (fun x => x.date)).Pairwise strLt ∧
    (∀ x ∈ loadHistory (histFold records .absent), x ∈ records) ∧
    (∀ y ∈ records,
      y.date ∉ (loadHistory (histFold records .absent)).map (fun x => x.date) →
      ∀ x ∈ loadHistory (histFold records .absent), strLt y.date x.date) := by
  have hbase : HistInv [] (loadHistory .absent) := by
    refine ⟨List.Pairwise.nil, ?_, ?_, ?_⟩ <;> simp [loadHistory]
  have hinv := histFold_inv records [] .absent hbase (by simpa using hnd)
  rw [List.nil_append] at hinv
  obtain ⟨h1, h2, h3, h4⟩ := hinv
  have h14 : HISTORY_DAYS = 14 := rfl
  refine ⟨fun _ => rfl, by omega, h1, h2, h4⟩

/-- The fifteen distinct-date records used by the C8 witness. -/
def c8recs : List SleepRecord :=
  (["a", "b", "c", "d", "e", "f", "g", "h", "i", "j", "k", "l", "m",
    "n", "o"]).map (fun d => ⟨d, 13, 7, 4, 80, 90⟩)

/-- Witness for C8: fifteen upserts with distinct dates leave exactly
14 records in the store. -/
theorem wake_C8_witness :
    (loadHistory (histFold c8recs .absent)).length = 14 :=
  (wake_C8 c8recs (by decide) (by decide)).2.1

/-! ### C4 (corrected) -/

/-- An unsorted 8-entry history whose positionally-first entry carries
the latest date; the code's positional window then differs from the
7-most-recent-by-date window. -/
def c4hist : List SleepRecord :=
  [⟨"2025-01-08", 20, 7, 4, 80, 90⟩,
   ⟨"2025-01-01", 1, 7, 4, 80, 90⟩,
   ⟨"2025-01-02", 10, 7, 4, 80, 90⟩,
   ⟨"2025-01-03", 10, 7, 4, 80, 90⟩,
   ⟨"2025-01-04", 10, 7, 4, 80, 90⟩,
   ⟨"2025-01-05", 10, 7, 4, 80, 90⟩,
   ⟨"2025-01-06", 10, 7, 4, 80, 90⟩,
   ⟨"2025-01-07", 10, 7, 4, 80, 90⟩]

/-- Modelled from the spec's words (refinement target for C4): the
window of "the 7 most-recent (by date) entries" — the last 7 of the
date-sorted history. -/
def specWindow7 (history : List SleepRecord) : List SleepRecord :=
  rollingWindow (sortByDate history)

/-- A 3-entry history with end-hours 10, 10, 11, whose arithmetic mean
31/3 is not representable after the code's rounding to 1 decimal. -/
def c4rhist : List SleepRecord :=
  [⟨"2025-01-01", 10, 7, 4, 80, 90⟩,
   ⟨"2025-01-02", 10, 7, 4, 80, 90⟩,
   ⟨"2025-01-03", 11, 7, 4, 80, 90⟩]

/-- C4 counterexample, refuting two clauses of the claim.  First, the
window: on the unsorted history `c4hist` (no entry matching the
evaluated date), the statistics the code computes differ from the
statistics over the 7 most-recent-by-date entries — the code's
positional window retains the date-oldest entry (end-hour 1) and
drops the date-newest one (end-hour 20).  Second, `avgEndHour`: the
claim calls it the (unrounded) arithmetic mean of end-hours, but on
`c4rhist` the mean is 31/3 while the code reports
`Math.round(31/3 * 10) / 10 = 103/10`. -/
theorem wake_C4_counterexample :
    (calculateRollingStats (excludeDate "2099-12-31" c4hist)).minEndHour
        = 1 ∧
    (calculateRollingStats
        (specWindow7 (excludeDate "2099-12-31" c4hist))).minEndHour = 10 ∧
    calculateRollingStats (excludeDate "2099-12-31" c4hist) ≠
      calculateRollingStats
        (specWindow7 (excludeDate "2099-12-31" c4hist)) ∧
    (calculateRollingStats (excludeDate "2099-12-31" c4rhist)).avgEndHour
        = Rat.divInt 103 10 ∧
    listAvg ((rollingWindow (excludeDate "2099-12-31" c4rhist)).map
        (fun x => x.endUtcHour)) = Rat.divInt 31 3 ∧
    (calculateRollingStats (excludeDate "2099-12-31" c4rhist)).avgEndHour ≠
      listAvg ((rollingWindow (excludeDate "2099-12-31" c4rhist)).map
        (fun x => x.endUtcHour)) := by
  refine ⟨by decide, by decide, by decide, by decide, by decide, by decide⟩

/-- C4 amended: the rolling statistics are computed over the
positionally-last at-most-7 entries of the history with the evaluated
date's entry excluded (which are the 7 most-recent by date whenever
the history is date-ascending, as store-loaded histories are); an
empty window yields exactly the default tuple; and a non-empty window
yields: `avgEndHour` the arithmetic mean of end-hours rounded to 1
decimal, `minEndHour` the unrounded minimum, `avgDuration` and
`minDuration` the mean and minimum of durations each rounded to 1
decimal, `avgCycles` the mean of cycle counts rounded to 1 decimal
with `minCycles` the unrounded minimum, `avgPerformance` the mean of
performance rounded to the nearest integer with `minPerformance` the
unrounded minimum, and `sampleSize` the window length. -/
theorem wake_C4_amended (history : List SleepRecord) (d : String) :
    (rollingWindow (excludeDate d history)).length ≤ 7 ∧
    (∀ x ∈ rollingWindow (excludeDate d history),
      x ∈ history ∧ x.date ≠ d) ∧
    (history.Pairwise dateLe →
      ∀ x ∈ (excludeDate d history).take
          ((excludeDate d history).length - ROLLING_WINDOW),
        ∀ y ∈ rollingWindow (excludeDate d history), dateLe x y) ∧
    (rollingWindow (excludeDate d history) = [] →
      calculateRollingStats (excludeDate d history) = defaultStats) ∧
    (∀ w, rollingWindow (excludeDate d history) = w → w ≠ [] →
      calculateRollingStats (excludeDate d history) =
        { avgEndHour :=
            ((⌊(w.map (fun x => x.endUtcHour)).sum / (w.length : ℚ) * 10
                + 1 / 2⌋ : ℤ) : ℚ) / 10
          minEndHour := jsMin (w.map (fun x => x.endUtcHour))
          avgDuration :=
            ((⌊(w.map (fun x => x.durationHours)).sum / (w.length : ℚ) * 10
                + 1 / 2⌋ : ℤ) : ℚ) / 10
          minDuration :=
            ((⌊jsMin (w.map (fun x => x.durationHours)) * 10
                + 1 / 2⌋ : ℤ) : ℚ) / 10
          avgCycles :=
            ((⌊(w.map (fun x => x.cycles)).sum / (w.length : ℚ) * 10
                + 1 / 2⌋ : ℤ) : ℚ) / 10
          minCycles := jsMin (w.map (fun x => x.cycles))
          avgPerformance :=
            ((⌊(w.map (fun x => x.performance)).sum / (w.length : ℚ)
                + 1 / 2⌋ : ℤ) : ℚ)
          minPerformance := jsMin (w.map (fun x => x.performance))
          sampleSize := w.length }) := by
  refine ⟨?_, ?_, ?_, ?_, ?_⟩
  · rw [rollingWindow, List.length_drop]
    have h7 : ROLLING_WINDOW = 7 := rfl
    omega
  · intro x hx
    have hx' : x ∈ excludeDate d history :=
      List.mem_of_mem_drop hx
    have := List.mem_filter.mp hx'
    exact ⟨this.1, by simpa using this.2⟩
  · intro hsorted x hxt y hyw
    have hfil : (excludeDate d history).Pairwise dateLe :=
      hsorted.filter _
    have hsplit : (excludeDate d history).take
          ((excludeDate d history).length - ROLLING_WINDOW) ++
        rollingWindow (excludeDate d history) = excludeDate d history :=
      List.take_append_drop _ _
    have hpw := hsplit ▸ hfil
    exact (List.pairwise_append.mp hpw).2.2 x hxt y hyw
  · intro h0
    simp [calculateRollingStats, h0]
  · intro w hw hne
    simp [calculateRollingStats, hw, hne, listAvg_eq, jsRound_eq, round1_eq]

/-- Witness for C4 on the empty history: the stats are exactly the
default tuple. -/
theorem wake_C4_witness :
    calculateRollingStats (excludeDate "x" []) = defaultStats :=
  (wake_C4_amended [] "x").2.2.2.1 rfl

end Whoop
